import Mathlib

/-!
Verification of the phylopypruner data-model and run-reporting layer.

Shallow embedding of:
* `src/sequence.py`  — `Sequence`: description/taxon/identifier derivation,
  alphabet validation, GC content, ungapped data;
* `src/msa.py`       — `MultipleSequenceAlignment.add_sequence`;
* `phylopypruner/log.py` — `Log` construction and the rendering/statistics
  helpers (`paralogs_to_str`, `msas_out_to_str`, `missing_data`,
  `shortest_sequence`, `longest_sequence`).

Strings are embedded as `List Char`; Python floats are idealised as exact
rationals (`ℚ`), with the Python `round` function (banker rounding at the given number
of decimal digits) made explicit.  Python exceptions are embedded as `Option`
(`none` = the call raises) or as an explicit error component.
-/

namespace PhyloPyPruner

/-- The two reserved description delimiters of `sequence.py` / `msa.py`:
the regular expression `\||@` matches exactly the characters `|` and `@`. -/
def isDelim (c : Char) : Bool := c = '|' || c = '@'

/-- Embedding of `re.split(r"\||@", s)`: split `s` at every occurrence of `|` or `@`
(each delimiter occurrence separates fields; the result always has one more
field than there are delimiter occurrences). -/
def reSplitDelims : List Char → List (List Char)
  | [] => [[]]
  | c :: cs =>
    if isDelim c then
      [] :: reSplitDelims cs
    else
      match reSplitDelims cs with
      | [] => [[c]]
      | f :: rest => (c :: f) :: rest

/-- Taxon/identifier derivation of `Sequence.__init__(description, sequence_data)`
(`sequence.py:16-25`): when `description` is non-empty (truthy),
`_otu` is field `[0]` and `_identifier` is field `[1]` of
`re.split(r"\||@", description)`; indexing a split result with fewer than two
fields raises `IndexError` (embedded as `none`).  An empty (falsy)
description skips the split and yields `("", "")`. -/
def sequenceInitOtuId (description : List Char) : Option (List Char × List Char) :=
  if description = [] then
    some ([], [])
  else
    match reSplitDelims description with
    | f0 :: f1 :: _ => some (f0, f1)
    | _ => none

/-- Taxon/identifier derivation of `MultipleSequenceAlignment.add_sequence`
(`msa.py:66-71`, the `not sequence` branch, with `description=...` given):
`otu` is field `[0]` and `identifier` is field `[1]` of
`re.split(r"\||@", description)`, with no empty-description guard, so the
empty description also reaches the failing `[1]` index. -/
def addSequenceOtuId (description : List Char) : Option (List Char × List Char) :=
  match reSplitDelims description with
  | f0 :: f1 :: _ => some (f0, f1)
  | _ => none

/-- Stored state of a `Sequence` object (`sequence.py`): the raw description
and the raw residue data. -/
structure Sequence where
  description : List Char
  sequence_data : List Char
  deriving DecidableEq

/-- Embedding of `Sequence.ungapped` (`sequence.py:117-121`):
`self.sequence_data.replace("-", "")` — the raw data with every `-` removed. -/
def Sequence.ungapped (s : Sequence) : List Char :=
  s.sequence_data.filter (fun c => c ≠ '-')

/-- Embedding of `len(sequence)` (`sequence.py:30-31`): the raw data length. -/
def Sequence.len (s : Sequence) : Nat := s.sequence_data.length

/-- The `AMINO_ACIDS` pattern string of `sequence.py:7`, verbatim. -/
def AMINO_ACIDS : List Char := "^[ABCDEFGHIKLMNPQRSTUVWYZX*-.]*$".toList

/-- The `NUCLEOTIDES` pattern string of `sequence.py:8`, verbatim.  (As a
regular expression this is not even well formed — `H-.` is a reversed
character range — but the program never compiles it.) -/
def NUCLEOTIDES : List Char := "^[ATKMBVCNSWDGUYRH-.]*$".toList

/-- Embedding of `IUPAC_CODES = (AMINO_ACIDS, NUCLEOTIDES)` (`sequence.py:9`): a tuple of
the two *pattern strings*. -/
def IUPAC_CODES : List (List Char) := [AMINO_ACIDS, NUCLEOTIDES]

/-- Embedding of `Sequence._validate_sequence` (`sequence.py:91-97`): returns silently on
empty data; otherwise, for each letter, `if letter not in IUPAC_CODES` —
Python tuple membership, i.e. *equality of the one-letter string with one of
the two pattern strings* — raises `AssertionError` naming the description.
`some d` embeds the raised error carrying description `d`; `none` embeds a
silent return. -/
def Sequence.validate_sequence (s : Sequence) : Option (List Char) :=
  if s.sequence_data = [] then none
  else if ∀ c ∈ s.sequence_data, [c] ∈ IUPAC_CODES then none
  else some s.description

/-- The set of characters matched by the amino-acid character class
`[ABCDEFGHIKLMNPQRSTUVWYZX*-.]` of `sequence.py:7`: the listed letters plus
the range from `*` (42) to `.` (46), i.e. `*`, `+`, `,`, `-`, `.`. -/
def aminoAlphabet : List Char :=
  ['A', 'B', 'C', 'D', 'E', 'F', 'G', 'H', 'I', 'K', 'L', 'M', 'N', 'P',
   'Q', 'R', 'S', 'T', 'U', 'V', 'W', 'Y', 'Z', 'X', '*', '+', ',', '-', '.']

/-- Python `round` on a value idealised as an exact rational: round half to
even (banker rounding) to the nearest integer. -/
def roundHalfEven (q : ℚ) : ℤ :=
  if q - ⌊q⌋ < 1 / 2 then ⌊q⌋
  else if 1 / 2 < q - ⌊q⌋ then ⌊q⌋ + 1
  else if ⌊q⌋ % 2 = 0 then ⌊q⌋ else ⌊q⌋ + 1

/-- Python `round(q, n)`: round to `n` decimal digits, halves to even. -/
def pyRound (n : Nat) (q : ℚ) : ℚ := (roundHalfEven (q * 10 ^ n) : ℚ) / 10 ^ n

/-- The non-fatal warnings printed by `Sequence.gc_content`
(`sequence.py:110-113`): one per character of the lower-cased data that is
not one of `a`, `c`, `g`, `t`. -/
def Sequence.gcWarnings (s : Sequence) : List Char :=
  (s.sequence_data.map Char.toLower).filter
    (fun c => !(c == 'a' || c == 'c' || c == 'g' || c == 't'))

/-- Value `gc_count` of `Sequence.gc_content` (`sequence.py:114`): occurrences of
`g` plus occurrences of `c` in the lower-cased data. -/
def Sequence.gcCount (s : Sequence) : Nat :=
  (s.sequence_data.map Char.toLower).count 'g' +
    (s.sequence_data.map Char.toLower).count 'c'

/-- Embedding of `Sequence.gc_content` (`sequence.py:103-115`):
`round(float(gc_count) / len(sequence), 2)` — the division is by the *raw*
length, with no guard, so raw length 0 raises `ZeroDivisionError` (embedded
as `none`). -/
def Sequence.gc_content (s : Sequence) : Option ℚ :=
  if s.sequence_data.length = 0 then none
  else some (pyRound 2 ((s.gcCount : ℚ) / (s.sequence_data.length : ℚ)))

/-- Stored state of a `MultipleSequenceAlignment` object (`msa.py`). -/
structure MultipleSequenceAlignment where
  filename : List Char
  sequences : List Sequence
  deriving DecidableEq

/-- One iteration of the `shortest_sequence` loop (`log.py:402-404`):
`if not shortest or shortest > len(sequence.ungapped()): shortest = len(...)`.
Note `not shortest` is true both for `None` and for `0`. -/
def shortestStep (acc : Option Nat) (l : Nat) : Option Nat :=
  match acc with
  | none => some l
  | some s => if s = 0 then some l else if s > l then some l else some s

/-- Embedding of `shortest_sequence` (`log.py:396-405`): fold the loop body
over the sequences of the alignment, starting from `None`. -/
def shortest_sequence (msa : MultipleSequenceAlignment) : Option Nat :=
  msa.sequences.foldl (fun acc s => shortestStep acc s.ungapped.length) none

/-- One iteration of the `longest_sequence` loop (`log.py:413-415`):
`if not longest or longest < len(sequence.ungapped()): longest = len(...)`. -/
def longestStep (acc : Option Nat) (l : Nat) : Option Nat :=
  match acc with
  | none => some l
  | some m => if m = 0 then some l else if m < l then some l else some m

/-- Embedding of `longest_sequence` (`log.py:407-416`). -/
def longest_sequence (msa : MultipleSequenceAlignment) : Option Nat :=
  msa.sequences.foldl (fun acc s => longestStep acc s.ungapped.length) none

/-- One iteration of the `missing_data` loop (`log.py:376-381`): increment
the sequence counter; when the raw length is positive, add
`missing / len(sequence)` to the running sum (`missing` = raw length minus
ungapped length), otherwise add nothing. -/
def missingStep (acc : Nat × ℚ) (s : Sequence) : Nat × ℚ :=
  (acc.1 + 1,
   if s.len > 0 then
     acc.2 + ((s.len - s.ungapped.length : ℕ) : ℚ) / (s.len : ℚ)
   else acc.2)

/-- Embedding of `missing_data` (`log.py:372-385`): run the loop, then
`round(pct_missing / sequences, 3) * 100` when at least one sequence was
seen, else `0`. -/
def missing_data (msa : MultipleSequenceAlignment) : ℚ :=
  if (msa.sequences.foldl missingStep (0, 0)).1 > 0 then
    pyRound 3 ((msa.sequences.foldl missingStep (0, 0)).2 /
      ((msa.sequences.foldl missingStep (0, 0)).1 : ℚ)) * 100
  else 0

/-- Per-sequence missing-data fraction as the specification words it:
`(raw length − ungapped length) / raw length`, with raw length 0
contributing `0`. -/
def missingFrac (s : Sequence) : ℚ :=
  if s.len = 0 then 0
  else ((s.len - s.ungapped.length : ℕ) : ℚ) / (s.len : ℚ)

/-- The dedup loop of `Log.paralogs_to_str` (`log.py:249-256`): a taxon is
added to `unique_paralogs` iff it was not seen before, so the *membership* of
the set is the distinct taxa; this helper keeps them in first-encounter
order. -/
def dedupFirstAux : List (List Char) → List (List Char) → List (List Char)
  | _, [] => []
  | seen, p :: ps =>
    if p ∈ seen then dedupFirstAux seen ps
    else p :: dedupFirstAux (p :: seen) ps

/-- Distinct taxa in first-encounter order. -/
def dedupFirst (ps : List (List Char)) : List (List Char) := dedupFirstAux [] ps

/-- The rendering loop of `Log.paralogs_to_str` (`log.py:257-261`): every
element but the last is followed by `", "`; the last is appended bare. -/
def renderTaxa : List (List Char) → List Char
  | [] => []
  | [p] => p
  | p :: q :: rest => p ++ (", ".toList) ++ renderTaxa (q :: rest)

/-- The literal `"paralogous OTUs: "` built at `log.py:251`. -/
def paraHeader : List Char := "paralogous OTUs: ".toList

/-- Embedding of `Log.paralogs_to_str` (`log.py:247-264`).  The function iterates the
Python *set* `unique_paralogs`, whose iteration order is unspecified (string
hashing is randomised per process), so the embedding is a relation: `out` is
a possible return value iff it renders *some* enumeration order of the set
of distinct taxa.  `paralogOtus` is the list of `paralog.otu()` values of
`self.paralogs`, in list order.  The empty collection takes the `else`
branch and returns the header plus `" none"`. -/
def paralogs_to_str_rel (paralogOtus : List (List Char)) (out : List Char) : Prop :=
  if paralogOtus = [] then out = paraHeader ++ " none".toList
  else ∃ enum : List (List Char),
    enum.Perm (dedupFirst paralogOtus) ∧ out = paraHeader ++ renderTaxa enum

/-- The body of the `Log.msas_out_to_str` loop (`log.py:272-278`) for the
entries after the leading-newline test: only the fragment of the *last* entry
carries a trailing newline (`"wrote: {}\n"` vs `"wrote: {}"`).  The `is`
identity tests against `msas_out[0]` / `msas_out[-1]` are embedded
positionally: each recorded output alignment is a distinct object, appended
once per written file. -/
def wroteBody : List (List Char) → List Char
  | [] => []
  | [p] => "wrote: ".toList ++ p ++ ['\n']
  | p :: q :: rest => ("wrote: ".toList ++ p) ++ wroteBody (q :: rest)

/-- Embedding of `Log.msas_out_to_str` (`log.py:266-279`): the empty collection yields the
empty string; otherwise a `"\n"` is prepended at the first iteration and the
loop body runs over all entries. -/
def msas_out_to_str (paths : List (List Char)) : List Char :=
  match paths with
  | [] => []
  | _ :: _ => '\n' :: wroteBody paths

/-- The fields of `Settings` (`settings.py`) that `Log.__init__` reads. -/
structure Settings where
  fasta_file : List Char
  nw_file : List Char
  outgroup : List (List Char)
  prune : Bool
  deriving DecidableEq

/-- The tree interface `Log.__init__` consumes (`log.py:25-26`): a tree
exposing `iter_leaves` and `iter_otus`; modelled as the list of leaf OTU
labels in iteration order (one OTU per leaf). -/
structure TreeNode where
  leafOtus : List (List Char)
  deriving DecidableEq

/-- Embedding of `tree.iter_leaves()`: one entry per leaf. -/
def TreeNode.iter_leaves (t : TreeNode) : List (List Char) := t.leafOtus

/-- Embedding of `tree.iter_otus()`: the OTU label of each leaf. -/
def TreeNode.iter_otus (t : TreeNode) : List (List Char) := t.leafOtus

/-- State of a `Log` object after `__init__` (`log.py:17-35`), restricted to
the fields the claims mention. -/
structure Log where
  version : List Char
  msa : MultipleSequenceAlignment
  tree_internal : TreeNode
  msa_file : List Char
  tree_file : List Char
  outgroup : List (List Char)
  prune_paralogs : Bool
  sequences : Nat
  taxa : Nat
  deriving DecidableEq

/-- Embedding of `Log.__init__(version, msa, tree, settings)` (`log.py:17-26`):
`_sequences = len(list(tree.iter_leaves()))` and
`_taxa = len(set(list(tree.iter_otus())))` are frozen at construction. -/
def Log.init (version : List Char) (msa : MultipleSequenceAlignment)
    (tree : TreeNode) (settings : Settings) : Log :=
  { version := version
    msa := msa
    tree_internal := tree
    msa_file := settings.fasta_file
    tree_file := settings.nw_file
    outgroup := settings.outgroup
    prune_paralogs := settings.prune
    sequences := tree.iter_leaves.length
    taxa := tree.iter_otus.dedup.length }

/-- The `tree` *property* of `Log` (`log.py:59-64`): its body is
`return self._msa`, not `return self._tree`. -/
def Log.tree (l : Log) : MultipleSequenceAlignment := l.msa

/-! ## Helper lemmas -/

theorem reSplitDelims_ne_nil (s : List Char) : reSplitDelims s ≠ [] := by
  induction s with
  | nil => simp [reSplitDelims]
  | cons c cs ih =>
    simp only [reSplitDelims]
    by_cases h : isDelim c
    · simp [h]
    · simp only [h]
      cases hsplit : reSplitDelims cs with
      | nil => simp
      | cons f rest => simp

/-- A delimiter-free string splits into the single field holding the whole
string. -/
theorem reSplitDelims_no_delim (s : List Char) (h : ∀ c ∈ s, isDelim c = false) :
    reSplitDelims s = [s] := by
  induction s with
  | nil => rfl
  | cons c cs ih =>
    have hc : isDelim c = false := h c (by simp)
    have hcs : ∀ x ∈ cs, isDelim x = false := fun x hx => h x (by simp [hx])
    simp only [reSplitDelims, hc, Bool.false_eq_true, if_false, ih hcs]

/-- Splitting `t ++ d :: r` where `t` and `r` are delimiter-free and `d` is a
delimiter yields exactly the two fields `t` and `r`. -/
theorem reSplitDelims_single_delim (t r : List Char) (d : Char)
    (hd : isDelim d = true)
    (ht : ∀ c ∈ t, isDelim c = false) (hr : ∀ c ∈ r, isDelim c = false) :
    reSplitDelims (t ++ d :: r) = [t, r] := by
  induction t with
  | nil =>
    simp only [List.nil_append, reSplitDelims, hd, if_true,
      reSplitDelims_no_delim r hr]
  | cons c cs ih =>
    have hc : isDelim c = false := ht c (by simp)
    have hcs : ∀ x ∈ cs, isDelim x = false := fun x hx => ht x (by simp [hx])
    simp only [List.cons_append, reSplitDelims, hc, Bool.false_eq_true, if_false]
    rw [show cs.append (d :: r) = cs ++ d :: r from rfl, ih hcs]

/-- The loop body of `msas_out_to_str` over a non-empty entry list equals the
`"wrote: <path>"` fragments concatenated without separators, with one
trailing newline. -/
theorem wroteBody_eq_flatten (paths : List (List Char)) (h : paths ≠ []) :
    wroteBody paths
      = (paths.map (fun p => "wrote: ".toList ++ p)).flatten ++ ['\n'] := by
  induction paths with
  | nil => exact absurd rfl h
  | cons p rest ih =>
    cases rest with
    | nil => simp [wroteBody]
    | cons q rest2 =>
      rw [show wroteBody (p :: q :: rest2)
            = ("wrote: ".toList ++ p) ++ wroteBody (q :: rest2) from rfl,
        ih (by simp)]
      simp [List.append_assoc]

/-- One `missing_data` loop iteration adds exactly the per-sequence
missing-data fraction to the running sum. -/
theorem missingStep_eq (acc : Nat × ℚ) (s : Sequence) :
    missingStep acc s = (acc.1 + 1, acc.2 + missingFrac s) := by
  unfold missingStep missingFrac
  rcases Nat.eq_zero_or_pos s.len with h | h
  · simp [h]
  · simp [h, Nat.pos_iff_ne_zero.mp h]

/-- The `missing_data` fold counts the sequences and sums the per-sequence
fractions. -/
theorem foldl_missingStep (seqs : List Sequence) (n : Nat) (q : ℚ) :
    seqs.foldl missingStep (n, q)
      = (n + seqs.length, q + (seqs.map missingFrac).sum) := by
  induction seqs generalizing n q with
  | nil => simp
  | cons s rest ih =>
    rw [List.foldl_cons, missingStep_eq, ih]
    refine Prod.ext ?_ ?_
    · simp; omega
    · simp [add_assoc]

/-- Membership in the dedup helper: exactly the input elements not already
seen. -/
theorem mem_dedupFirstAux (x : List Char) (seen ps : List (List Char)) :
    x ∈ dedupFirstAux seen ps ↔ x ∈ ps ∧ x ∉ seen := by
  induction ps generalizing seen with
  | nil => simp [dedupFirstAux]
  | cons p rest ih =>
    simp only [dedupFirstAux]
    by_cases hp : p ∈ seen
    · rw [if_pos hp, ih]
      constructor
      · rintro ⟨hr, hs⟩
        exact ⟨List.mem_cons_of_mem p hr, hs⟩
      · rintro ⟨hpr, hs⟩
        rcases List.mem_cons.mp hpr with rfl | hr
        · exact absurd hp hs
        · exact ⟨hr, hs⟩
    · rw [if_neg hp]
      rw [List.mem_cons, ih]
      constructor
      · rintro (rfl | ⟨hr, hs⟩)
        · exact ⟨List.mem_cons_self x rest, hp⟩
        · exact ⟨List.mem_cons_of_mem p hr,
            fun hx => hs (List.mem_cons_of_mem p hx)⟩
      · rintro ⟨hpr, hs⟩
        by_cases hxp : x = p
        · exact Or.inl hxp
        · rcases List.mem_cons.mp hpr with rfl | hr
          · exact absurd rfl hxp
          · refine Or.inr ⟨hr, fun hx => ?_⟩
            rcases List.mem_cons.mp hx with h1 | h2
            · exact hxp h1
            · exact hs h2

/-- The dedup helper never repeats an element. -/
theorem nodup_dedupFirstAux (seen ps : List (List Char)) :
    (dedupFirstAux seen ps).Nodup := by
  induction ps generalizing seen with
  | nil => simp [dedupFirstAux]
  | cons p rest ih =>
    simp only [dedupFirstAux]
    by_cases hp : p ∈ seen
    · rw [if_pos hp]
      exact ih seen
    · rw [if_neg hp]
      refine List.nodup_cons.mpr ⟨?_, ih (p :: seen)⟩
      intro hmem
      exact ((mem_dedupFirstAux p (p :: seen) rest).mp hmem).2
        (List.mem_cons_self p seen)

/-! ## Claim theorems -/

/-- C1 (counterexample): for the description `"A|B@C"` — taxon `A`, first
delimiter `|`, full substring after the first delimiter `B@C` — both
`Sequence.__init__` and `add_sequence` derive identifier `"B"`, not the full
substring `"B@C"` after the first delimiter: `re.split` splits at *every*
delimiter and field `[1]` stops at the second one. -/
theorem otu_id_truncated_at_second_delim :
    sequenceInitOtuId "A|B@C".toList = some ("A".toList, "B".toList) ∧
    addSequenceOtuId "A|B@C".toList = some ("A".toList, "B".toList) ∧
    ("B".toList : List Char) ≠ "B@C".toList := by
  decide

/-- C1 (amended): for every description `t ++ d :: r` whose first delimiter
occurrence is `d` (so `t` is delimiter-free), constructing a `Sequence` from
it or adding it via `add_sequence` derives taxon exactly `t` and identifier
exactly `r` *provided the remainder `r` contains no further delimiter*; in
general the identifier is the substring between the first and second
delimiter occurrences. -/
theorem otu_id_extraction_first_fields (t r : List Char) (d : Char)
    (hd : isDelim d = true)
    (ht : ∀ c ∈ t, isDelim c = false) (hr : ∀ c ∈ r, isDelim c = false) :
    sequenceInitOtuId (t ++ d :: r) = some (t, r) ∧
    addSequenceOtuId (t ++ d :: r) = some (t, r) := by
  have hsplit := reSplitDelims_single_delim t r d hd ht hr
  have hne : t ++ d :: r ≠ [] := by simp
  exact ⟨by simp [sequenceInitOtuId, hne, hsplit], by simp [addSequenceOtuId, hsplit]⟩

/-- C1 (witness): the amended theorem at `taxon = "A"`, delimiter `|`,
remainder `"B"`. -/
theorem otu_id_extraction_first_fields_witness :
    sequenceInitOtuId "A|B".toList = some ("A".toList, "B".toList) ∧
    addSequenceOtuId "A|B".toList = some ("A".toList, "B".toList) := by
  have h := otu_id_extraction_first_fields "A".toList "B".toList '|'
    (by decide) (by decide) (by decide)
  have he : "A".toList ++ '|' :: "B".toList = "A|B".toList := by decide
  rw [← he]
  exact h

/-- C2: `_validate_sequence` signals an alphabet violation (raising
`AssertionError` naming the description) on the sequence `"A"`, even though
`A` belongs to the amino-acid alphabet of the `AMINO_ACIDS` pattern: the
membership test `letter not in IUPAC_CODES` compares each one-letter string
against the two *pattern strings* of the tuple, never against the character
classes, so every non-empty sequence — valid or not — is rejected. -/
theorem validate_rejects_valid_amino_acid_data :
    (Sequence.mk "taxon|id1".toList "A".toList).validate_sequence
        = some "taxon|id1".toList ∧
    'A' ∈ aminoAlphabet := by
  decide

/-- C3: on an alignment whose sequences have ungapped lengths `0` and `5`
(in that order), `shortest_sequence` returns `5` although the minimum of the
ungapped lengths is `0`: after the first iteration stores `0`, the guard
`not shortest` is true again (`0` is falsy) and the running minimum is
overwritten, so the result also depends on the order of the sequences. -/
theorem shortest_sequence_skips_zero_length :
    shortest_sequence (MultipleSequenceAlignment.mk "x.fas".toList
        [Sequence.mk "a|1".toList "--".toList,
         Sequence.mk "b|2".toList "ACGTA".toList]) = some 5 ∧
    ((MultipleSequenceAlignment.mk "x.fas".toList
        [Sequence.mk "a|1".toList "--".toList,
         Sequence.mk "b|2".toList "ACGTA".toList]).sequences.map
      (fun s => s.ungapped.length)).min? = some 0 := by
  decide

/-- C8 (counterexample): the empty description lacks both reserved
delimiters, yet `Sequence.__init__` does not fail at extraction: the falsy
check `if description` skips the split and silently produces the defaulted
pair `("", "")`. -/
theorem empty_description_silently_defaults :
    sequenceInitOtuId [] = some ([], []) ∧ sequenceInitOtuId [] ≠ none := by
  decide

/-- C8 (amended): for every *non-empty* description lacking both reserved
delimiters, taxon/identifier derivation fails at the point of extraction in
both `Sequence.__init__` and `add_sequence` — but with the generic
`IndexError` of indexing the single-field split result, not with a
descriptive error naming the description — while the empty description is
silently given the defaulted pair `("", "")` by `Sequence.__init__`
(`add_sequence` still fails on it). -/
theorem delimiterless_description_extraction (d : List Char)
    (h : ∀ c ∈ d, isDelim c = false) :
    (d ≠ [] → sequenceInitOtuId d = none) ∧
    addSequenceOtuId d = none ∧
    (d = [] → sequenceInitOtuId d = some ([], [])) := by
  have hsplit := reSplitDelims_no_delim d h
  refine ⟨fun hne => ?_, ?_, fun he => by simp [he, sequenceInitOtuId]⟩
  · simp [sequenceInitOtuId, hne, hsplit]
  · simp [addSequenceOtuId, hsplit]

/-- C8 (witness): the amended theorem at the delimiter-free description
`"abc"`. -/
theorem delimiterless_description_extraction_witness :
    sequenceInitOtuId "abc".toList = none ∧ addSequenceOtuId "abc".toList = none :=
  ⟨(delimiterless_description_extraction "abc".toList (by decide)).1 (by decide),
   (delimiterless_description_extraction "abc".toList (by decide)).2.1⟩

/-- C9: for every sequence `s`, `ungapped(s)` contains no gap character
`-`, its length is at most the raw data length of `s`, and the operation is
idempotent: a sequence whose data is `ungapped(s)` has `ungapped` equal to
`ungapped(s)` again. -/
theorem ungapped_gap_free_shorter_idempotent (s : Sequence) :
    '-' ∉ s.ungapped ∧
    s.ungapped.length ≤ s.sequence_data.length ∧
    ∀ d : List Char, (Sequence.mk d s.ungapped).ungapped = s.ungapped := by
  refine ⟨?_, List.length_filter_le _ _, fun d => ?_⟩
  · intro hmem
    have h := List.of_mem_filter hmem
    simp at h
  · show List.filter _ s.ungapped = s.ungapped
    rw [List.filter_eq_self]
    intro a ha
    exact (List.mem_filter.mp ha).2

/-- C4 (counterexample): `gc_content` does not always return a value: on a
sequence of raw length 0 the division `gc_count / len(sequence)` raises
`ZeroDivisionError` (embedded as `none`), instead of returning the defined
result `0` the claim requires. -/
theorem gc_content_empty_sequence_raises :
    (Sequence.mk "taxon|id2".toList []).gc_content = none ∧
    (Sequence.mk "taxon|id2".toList []).gc_content ≠ some 0 := by
  decide

/-- C4 (amended): for every sequence of raw length at least 1, `gc_content`
returns the ratio of `g`/`c` occurrences to the raw length rounded to 2
decimal places, and it emits non-fatal warnings exactly when some character
(case-insensitively) lies outside `{a, c, g, t}`; for raw length 0 it raises
`ZeroDivisionError` rather than returning 0. -/
theorem gc_content_nonempty_returns (s : Sequence) (h : s.sequence_data ≠ []) :
    s.gc_content
      = some (pyRound 2 ((s.gcCount : ℚ) / (s.sequence_data.length : ℚ))) ∧
    (s.gcWarnings ≠ [] ↔
      ∃ c ∈ s.sequence_data, Char.toLower c ∉ (['a', 'c', 'g', 't'] : List Char)) := by
  constructor
  · have hl : s.sequence_data.length ≠ 0 := by simpa using h
    simp [Sequence.gc_content, hl]
  · have hnil : s.gcWarnings = [] ↔
        ∀ c ∈ s.sequence_data, Char.toLower c ∈ (['a', 'c', 'g', 't'] : List Char) := by
      simp [Sequence.gcWarnings, List.filter_eq_nil_iff, List.forall_mem_map]
      exact forall₂_congr fun c hc => by tauto
    rw [Ne, hnil]
    push_neg
    rfl

/-- C4 (witness): the amended theorem at the sequence `"AXGC"`, which
contains the non-nucleotide character `X`. -/
theorem gc_content_nonempty_returns_witness :
    (Sequence.mk "t|i3".toList "AXGC".toList).gc_content
      = some (pyRound 2
          (((Sequence.mk "t|i3".toList "AXGC".toList).gcCount : ℚ) /
            (((Sequence.mk "t|i3".toList "AXGC".toList).sequence_data.length : ℚ)))) ∧
    ((Sequence.mk "t|i3".toList "AXGC".toList).gcWarnings ≠ [] ↔
      ∃ c ∈ ("AXGC".toList : List Char),
        Char.toLower c ∉ (['a', 'c', 'g', 't'] : List Char)) :=
  gc_content_nonempty_returns (Sequence.mk "t|i3".toList "AXGC".toList) (by decide)

/-- C6 (counterexample): with two recorded output alignments `a.fas` and
`b.fas`, the written-outputs summary is a newline followed by the two
`wrote:` fragments run together on a single line with one trailing newline —
not two lines with one entry each, as the claim states. -/
theorem msas_out_entries_not_on_own_lines :
    msas_out_to_str ["a.fas".toList, "b.fas".toList]
      = "\nwrote: a.faswrote: b.fas\n".toList ∧
    "\nwrote: a.faswrote: b.fas\n".toList ≠ "\nwrote: a.fas\nwrote: b.fas\n".toList := by
  decide

/-- C6 (amended): for a non-empty output-alignments collection the summary
is a leading newline, then the `"wrote: <path>"` fragments concatenated
*without separators*, then a single trailing newline (so only for one entry
does each entry sit on its own line); for the empty collection it is the
empty string. -/
theorem msas_out_to_str_layout (paths : List (List Char)) :
    msas_out_to_str paths =
      if paths = [] then []
      else '\n' :: ((paths.map (fun p => "wrote: ".toList ++ p)).flatten ++ ['\n']) := by
  cases paths with
  | nil => rfl
  | cons p rest =>
    rw [if_neg (by simp)]
    show '\n' :: wroteBody (p :: rest) = _
    rw [wroteBody_eq_flatten _ (by simp)]

/-- C10: the public `tree` property of a freshly constructed `Log` returns
the alignment object passed at construction (its body reads `self._msa`),
while the tree object is stored internally in `_tree` and is what the frozen
`sequences` (leaf count) and `taxa` (distinct-OTU count) fields are computed
from. -/
theorem log_tree_returns_msa (version : List Char)
    (msa : MultipleSequenceAlignment) (tree : TreeNode) (settings : Settings) :
    (Log.init version msa tree settings).tree = msa ∧
    (Log.init version msa tree settings).tree_internal = tree ∧
    (Log.init version msa tree settings).sequences = tree.iter_leaves.length ∧
    (Log.init version msa tree settings).taxa = tree.iter_otus.dedup.length :=
  ⟨rfl, rfl, rfl, rfl⟩

/-- C5 (counterexample): with paralog taxa `["B", "A"]`, the output that
renders the enumeration `["A", "B"]` is a possible return value of
`paralogs_to_str` (the iterated Python set may enumerate in that order), and
it differs from the rendering in first-encounter order `["B", "A"]` that the
claim asserts for every run. -/
theorem paralogs_to_str_not_first_encounter_order :
    paralogs_to_str_rel ["B".toList, "A".toList]
      (paraHeader ++ renderTaxa ["A".toList, "B".toList]) ∧
    paraHeader ++ renderTaxa ["A".toList, "B".toList]
      ≠ paraHeader ++ renderTaxa (dedupFirst ["B".toList, "A".toList]) := by
  constructor
  · simp only [paralogs_to_str_rel,
      if_neg (show ¬(["B".toList, "A".toList] : List (List Char)) = [] by simp)]
    have hd : dedupFirst [("B".toList : List Char), "A".toList]
        = ["B".toList, "A".toList] := by decide
    exact ⟨["A".toList, "B".toList], by rw [hd]; exact List.Perm.swap _ _ _, rfl⟩
  · decide

/-- C5 (amended): every possible output of `paralogs_to_str` lists each
distinct paralog taxon exactly once (an enumeration without duplicates whose
members are exactly the taxa of the paralog collection), comma-plus-space
separated — but in an *unspecified* set-iteration order, not necessarily the
first-encounter order; when the paralog collection is empty the output is
the literal text `"paralogous OTUs:  none"`. -/
theorem paralogs_to_str_distinct_taxa (paralogOtus : List (List Char))
    (out : List Char) (h : paralogs_to_str_rel paralogOtus out) :
    (paralogOtus = [] → out = paraHeader ++ " none".toList) ∧
    (paralogOtus ≠ [] → ∃ enum : List (List Char), enum.Nodup ∧
      (∀ t, t ∈ enum ↔ t ∈ paralogOtus) ∧
      out = paraHeader ++ renderTaxa enum) := by
  constructor
  · intro he
    simp only [paralogs_to_str_rel, if_pos he] at h
    exact h
  · intro hne
    simp only [paralogs_to_str_rel, if_neg hne] at h
    obtain ⟨enum, hperm, hout⟩ := h
    refine ⟨enum, ?_, ?_, hout⟩
    · exact hperm.nodup_iff.mpr (nodup_dedupFirstAux [] paralogOtus)
    · intro t
      rw [hperm.mem_iff]
      rw [show dedupFirst paralogOtus = dedupFirstAux [] paralogOtus from rfl,
        mem_dedupFirstAux]
      simp

/-- C5 (witness): the amended theorem at paralog taxa `["B", "A"]` and the
output that renders the first-encounter enumeration. -/
theorem paralogs_to_str_distinct_taxa_witness :
    ∃ enum : List (List Char), enum.Nodup ∧
      (∀ t, t ∈ enum ↔ t ∈ (["B".toList, "A".toList] : List (List Char))) ∧
      paraHeader ++ renderTaxa (dedupFirst ["B".toList, "A".toList])
        = paraHeader ++ renderTaxa enum :=
  (paralogs_to_str_distinct_taxa ["B".toList, "A".toList]
      (paraHeader ++ renderTaxa (dedupFirst ["B".toList, "A".toList]))
      (by
        simp only [paralogs_to_str_rel,
          if_neg (show ¬(["B".toList, "A".toList] : List (List Char)) = [] by simp)]
        exact ⟨dedupFirst ["B".toList, "A".toList], List.Perm.refl _, rfl⟩)).2
    (by simp)

/-- C7: `missing_data` equals the mean over the sequences of the alignment
of `(raw length − ungapped length) / raw length` — a sequence of raw length
0 contributing 0 instead of dividing by zero — rounded to 3 decimal places
and then multiplied by 100; it is 0 for an alignment with no sequences. -/
theorem missing_data_eq_rounded_mean (msa : MultipleSequenceAlignment) :
    missing_data msa =
      if msa.sequences = [] then 0
      else pyRound 3 ((msa.sequences.map missingFrac).sum /
        (msa.sequences.length : ℚ)) * 100 := by
  unfold missing_data
  rw [foldl_missingStep]
  rcases eq_or_ne msa.sequences [] with he | hne
  · simp [he]
  · have hl : 0 < msa.sequences.length := List.length_pos.mpr hne
    simp [hne, hl]

end PhyloPyPruner
